import Mathlib

/-!
Shallow embedding of the wheel-compatibility classifier, wheel selection,
resumable download loop and failure-file round trip of the
FLIPKART-PRODUCT-RECOMMENDER-SYSTEM troubleshooting scripts
(src/troubleshooting/clean_incompatible_wheels.py,
src/troubleshooting/download_packages.py, src/troubleshooting/retry_failed.py).

Python strings are modelled as `List Char`; Python `pat in s` as `inStr`;
the regex `(cp\d+(?:-abi\d+)?|py\d+|py\d+\.py\d+)` used with `re.findall`
is modelled by `findTags`, and `re.search(r'cp(\d)(\d)', tag)` by
`searchCpDD`.  All definitions follow the source line by line.
-/

/-- Python `pat in s` (substring containment), recursing on `s`. -/
def inStr (pat : List Char) : List Char → Bool
  | [] => pat.isEmpty
  | c :: rest => pat.isPrefixOf (c :: rest) || inStr pat rest

/-- Whitespace characters stripped by Python `str.strip()` (ASCII range). -/
def pySpace (c : Char) : Bool :=
  c == ' ' || c == '\t' || c == '\n' || c == '\r' || c == '\x0b' || c == '\x0c'

/-- Python `s.strip()`. -/
def pyStrip (s : List Char) : List Char :=
  ((s.dropWhile pySpace).reverse.dropWhile pySpace).reverse

/-- Trailing-whitespace removal, the right half of Python `str.strip()`. -/
def pyStripRight (s : List Char) : List Char :=
  (s.reverse.dropWhile pySpace).reverse

/-- Python `s.rstrip('.')`. -/
def pyRstripDots (s : List Char) : List Char :=
  (s.reverse.dropWhile (fun c => c == '.')).reverse

/-- Python `s.split(pat)[0]`: the prefix of `s` before the first occurrence
of `pat`; the whole of `s` when `pat` does not occur. -/
def beforeFirst (pat : List Char) : List Char → List Char
  | [] => []
  | c :: rest =>
    if pat.isPrefixOf (c :: rest) then [] else c :: beforeFirst pat rest

/-- Python `s.split(pat, 1)` when `pat` occurs in `s`: the parts before and
after the first occurrence. -/
def splitFirst (pat : List Char) : List Char → Option (List Char × List Char)
  | [] => none
  | c :: rest =>
    if pat.isPrefixOf (c :: rest) then some ([], (c :: rest).drop pat.length)
    else
      match splitFirst pat rest with
      | some (a, b) => some (c :: a, b)
      | none => none

/-- Python `s.replace(pat, '')` for the nonempty pattern `p :: ps`
(left-to-right, non-overlapping removal of every occurrence). -/
def replaceAllNE (p : Char) (ps : List Char) : List Char → List Char
  | [] => []
  | c :: rest =>
    if (p :: ps).isPrefixOf (c :: rest) then replaceAllNE p ps (rest.drop ps.length)
    else c :: replaceAllNE p ps rest
termination_by s => s.length
decreasing_by
  · simp only [List.length_drop, List.length_cons]
    omega
  · simp only [List.length_cons]
    omega

/-- Decimal digit list of a natural number, as Python string formatting
produces inside an f-string. -/
def natStr (n : Nat) : List Char := (Nat.repr n).toList

/-- Python `int(ch)` for a single digit character captured by `(\d)`. -/
def digitVal (c : Char) : Nat := c.toNat - 48

/-- One attempt of the regex alternative `cp\d+(?:-abi\d+)?` at the head of
the input: returns the matched text and the remaining input. -/
def matchCpAlt : List Char → Option (List Char × List Char)
  | 'c' :: 'p' :: rest =>
    let ds := rest.takeWhile Char.isDigit
    if ds.isEmpty then none
    else
      let rest2 := rest.dropWhile Char.isDigit
      match rest2 with
      | '-' :: 'a' :: 'b' :: 'i' :: rest3 =>
        let ds2 := rest3.takeWhile Char.isDigit
        if ds2.isEmpty then some ('c' :: 'p' :: ds, rest2)
        else
          some (('c' :: 'p' :: ds) ++ ('-' :: 'a' :: 'b' :: 'i' :: ds2),
            rest3.dropWhile Char.isDigit)
      | _ => some ('c' :: 'p' :: ds, rest2)
  | _ => none

/-- One attempt of the regex alternative `py\d+` at the head of the input. -/
def matchPy : List Char → Option (List Char × List Char)
  | 'p' :: 'y' :: rest =>
    let ds := rest.takeWhile Char.isDigit
    if ds.isEmpty then none
    else some ('p' :: 'y' :: ds, rest.dropWhile Char.isDigit)
  | _ => none

/-- One attempt of the regex alternative `py\d+\.py\d+` at the head of the
input.  (Tried only after `py\d+` fails, exactly as Python tries regex
alternatives left to right; it can therefore never fire, but it is kept
for fidelity to the source pattern.) -/
def matchPyPy (s : List Char) : Option (List Char × List Char) :=
  match matchPy s with
  | some (m1, rest1) =>
    match rest1 with
    | '.' :: rest2 =>
      match matchPy rest2 with
      | some (m2, rest3) => some (m1 ++ '.' :: m2, rest3)
      | none => none
    | _ => none
  | none => none

/-- The regex alternation `cp\d+(?:-abi\d+)?|py\d+|py\d+\.py\d+` attempted
at the head of the input, alternatives tried left to right. -/
def matchTag (s : List Char) : Option (List Char × List Char) :=
  match matchCpAlt s with
  | some r => some r
  | none =>
    match matchPy s with
    | some r => some r
    | none => matchPyPy s

/-- Scanning loop of `re.findall`: at each position try the pattern; on a
match record it and continue after it, otherwise advance one character.
Each step consumes at least one character, so `fuel = length` suffices. -/
def findTagsAux : Nat → List Char → List (List Char)
  | 0, _ => []
  | _ + 1, [] => []
  | fuel + 1, c :: rest =>
    match matchTag (c :: rest) with
    | some (m, r) => m :: findTagsAux fuel r
    | none => findTagsAux fuel rest

/-- `re.findall(r'(cp\d+(?:-abi\d+)?|py\d+|py\d+\.py\d+)', filename)`. -/
def findTags (s : List Char) : List (List Char) := findTagsAux s.length s

/-- `re.search(r'cp(\d)(\d)', tag)`: the two captured digits of the first
occurrence of `cp` followed by two digits. -/
def searchCpDD : List Char → Option (Nat × Nat)
  | 'c' :: 'p' :: d1 :: d2 :: rest =>
    if d1.isDigit && d2.isDigit then some (digitVal d1, digitVal d2)
    else searchCpDD ('p' :: d1 :: d2 :: rest)
  | _ :: rest => searchCpDD rest
  | [] => none

/- String constants appearing in the scripts. -/

def noneAnyS : List Char := "none-any".toList
def universal2S : List Char := "universal2".toList
def py3S : List Char := "py3".toList
def py2py3S : List Char := "py2.py3".toList
def abiS : List Char := "-abi".toList
def cpS : List Char := "cp".toList
def darwinS : List Char := "darwin".toList
def linuxS : List Char := "linux".toList
def windowsS : List Char := "windows".toList
def arm64S : List Char := "arm64".toList
def aarch64S : List Char := "aarch64".toList
def x8664S : List Char := "x86_64".toList
def amd64S : List Char := "amd64".toList

/-- Module-level platform globals of clean_incompatible_wheels.py:
`PLATFORM_TAG` and `INCOMPATIBLE_PLATFORMS`. -/
structure CleanConfig where
  platformTag : Option (List Char)
  incompatiblePlatforms : List (List Char)
deriving DecidableEq

/-- The module-level derivation of the clean_incompatible_wheels.py globals
from `platform.system().lower()` and `platform.machine().lower()`. -/
def cleanGlobals (system machine : List Char) : CleanConfig :=
  if system = darwinS then
    if machine = arm64S ∨ machine = aarch64S then ⟨some arm64S, [x8664S, amd64S]⟩
    else ⟨some x8664S, [arm64S, aarch64S]⟩
  else if system = linuxS then
    ⟨some machine, if machine = x8664S then [arm64S] else [x8664S, amd64S]⟩
  else ⟨none, []⟩

/-- Python truthiness of the `PLATFORM_TAG` global (`None` and the empty
string are falsy). -/
def truthyTag : Option (List Char) → Bool
  | none => false
  | some t => !t.isEmpty

/-- Body of the first `for tag in py_tags` loop of `is_compatible_wheel`
(lines 61-78): does this tag make the wheel compatible? -/
def tagMatchLoop1 (cp_tag : List Char) (python_major python_minor : Nat)
    (tag : List Char) : Bool :=
  inStr cp_tag tag || inStr py3S tag || inStr py2py3S tag ||
    (inStr abiS tag &&
      match searchCpDD tag with
      | some (wheel_major, wheel_minor) =>
        decide (wheel_major < python_major) ||
          (decide (wheel_major = python_major) && decide (wheel_minor ≤ python_minor))
      | none => false)

/-- Body of the second `for tag in py_tags` loop of `is_compatible_wheel`
(lines 81-91): does this tag force the wheel incompatible? -/
def tagRejectLoop2 (python_major python_minor : Nat) (tag : List Char) : Bool :=
  cpS.isPrefixOf tag &&
    (match searchCpDD tag with
     | some (wheel_major, wheel_minor) =>
       !inStr abiS tag &&
         (decide (wheel_major ≠ python_major) || decide (wheel_minor ≠ python_minor))
     | none => false)

/-- Lines 51-94 of `is_compatible_wheel`: the interpreter-tag stage reached
after the platform checks fall through. -/
def pyTagCompatible (filename : List Char) (python_major python_minor : Nat) : Bool :=
  let py_tags := findTags filename
  if py_tags.isEmpty then true
  else
    let cp_tag := cpS ++ natStr python_major ++ natStr python_minor
    if py_tags.any (tagMatchLoop1 cp_tag python_major python_minor) then true
    else if py_tags.any (tagRejectLoop2 python_major python_minor) then false
    else true

/-- `is_compatible_wheel(filename, python_major, python_minor)` of
clean_incompatible_wheels.py, parameterized by the module-level platform
globals. -/
def is_compatible_wheel (cfg : CleanConfig) (filename : List Char)
    (python_major python_minor : Nat) : Bool :=
  if inStr noneAnyS filename then true
  else if truthyTag cfg.platformTag then
    if inStr universal2S filename then true
    else if cfg.incompatiblePlatforms.any
        (fun p => inStr p filename && !inStr universal2S filename) then false
    else pyTagCompatible filename python_major python_minor
  else pyTagCompatible filename python_major python_minor

/- download_packages.py: module globals, release lookup and wheel selection. -/

def macArmTagS : List Char := "macosx_11_0_arm64".toList
def mac1015U2S : List Char := "macosx_10_15_universal2".toList
def mac110U2S : List Char := "macosx_11_0_universal2".toList
def macX86TagS : List Char := "macosx_10_13_x86_64".toList
def mac1012X86S : List Char := "macosx_10_12_x86_64".toList
def mac1013U2S : List Char := "macosx_10_13_universal2".toList
def linuxUS : List Char := "linux_".toList
def winAmd64S : List Char := "win_amd64".toList
def winUS : List Char := "win_".toList
def anyS : List Char := "any".toList
def bdistWheelS : List Char := "bdist_wheel".toList
def sdistS : List Char := "sdist".toList
def postS : List Char := ".post".toList
def post0S : List Char := ".post0".toList
def post0TailS : List Char := "post0".toList

/-- Module-level globals of download_packages.py: `CP_TAG`, `PLATFORM_TAG`,
`ALT_PLATFORM_TAGS` and the interpreter version they derive from. -/
structure DLConfig where
  cpTag : List Char
  platformTag : List Char
  altPlatformTags : List (List Char)
  pythonMajor : Nat
  pythonMinor : Nat
deriving DecidableEq

/-- The module-level derivation of the download_packages.py globals from
`platform.system().lower()`, `platform.machine().lower()` and
`sys.version_info`. -/
def downloadGlobals (system machine : List Char) (major minor : Nat) : DLConfig :=
  let cp := cpS ++ natStr major ++ natStr minor
  if system = darwinS then
    if machine = arm64S ∨ machine = aarch64S then
      ⟨cp, macArmTagS, [mac1015U2S, mac110U2S], major, minor⟩
    else ⟨cp, macX86TagS, [mac1012X86S, mac1013U2S], major, minor⟩
  else if system = linuxS then ⟨cp, linuxUS ++ machine, [], major, minor⟩
  else if system = windowsS then
    ⟨cp, if machine = amd64S then winAmd64S else winUS ++ machine, [], major, minor⟩
  else ⟨cp, anyS, [], major, minor⟩

/-- One artifact entry of a PyPI release list: `{filename, url, packagetype,
size}`. -/
structure PyFile where
  filename : List Char
  url : List Char
  packagetype : List Char
  size : Nat
deriving DecidableEq

/-- The JSON payload of the PyPI package endpoint, reduced to the fields the
scripts read: `info.version` and the `releases` mapping. -/
structure PackageInfo where
  infoVersion : List Char
  releases : List (List Char × List PyFile)
deriving DecidableEq

/-- Python `releases.get(version, [])` over the association-list model of the
releases dictionary. -/
def dictGet (rel : List (List Char × List PyFile)) (k : List Char) : List PyFile :=
  match rel.find? (fun kv => decide (kv.1 = k)) with
  | some kv => kv.2
  | none => []

/-- Lexicographic (code-point) comparison of Python strings. -/
def strLt : List Char → List Char → Bool
  | [], [] => false
  | [], _ :: _ => true
  | _ :: _, [] => false
  | a :: as, b :: bs => if a < b then true else if b < a then false else strLt as bs

/-- Insert into a descending-sorted list (stable: equal keys stay behind). -/
def insertDesc (x : List Char) : List (List Char) → List (List Char)
  | [] => [x]
  | y :: ys => if strLt y x then x :: y :: ys else y :: insertDesc x ys

/-- Python `sorted(keys, reverse=True)`. -/
def sortDesc : List (List Char) → List (List Char)
  | [] => []
  | x :: xs => insertDesc x (sortDesc xs)

/-- The fuzzy-match loop of `find_best_wheel` (lines 126-131): first key in
the descending key order that starts with the version base and maps to a
nonempty artifact list. -/
def fuzzySearch (rel : List (List Char × List PyFile)) (base : List Char) :
    List (List Char) → List PyFile
  | [] => []
  | k :: ks =>
    if base.isPrefixOf k then
      let fs := dictGet rel k
      if !fs.isEmpty then fs else fuzzySearch rel base ks
    else fuzzySearch rel base ks

/-- Lines 95-131 of `find_best_wheel`: exact release lookup followed by the
version-normalization ladder (strip first `.post` suffix, remove or append
`.post0`, then descending prefix fuzzy search). -/
def resolveFiles (rel : List (List Char × List PyFile)) (version : List Char) :
    List PyFile :=
  let files := dictGet rel version
  if !files.isEmpty then files
  else
    let files1 :=
      if inStr postS version then dictGet rel (beforeFirst postS version) else []
    if !files1.isEmpty then files1
    else
      let files2 :=
        if post0S.isSuffixOf version then dictGet rel (replaceAllNE '.' post0TailS version)
        else if !post0S.isSuffixOf version && !inStr postS version then
          dictGet rel (version ++ post0S)
        else []
      if !files2.isEmpty then files2
      else
        let base := if inStr postS version then beforeFirst postS version else version
        fuzzySearch rel base (sortDesc (rel.map Prod.fst))

/-- Stable-ABI acceptance test of the tier-4 loop in `find_best_wheel`
(lines 182-191): the first two digits after `cp` parse to a version no
newer than the running interpreter. -/
def stableAbiOk (python_major python_minor : Nat) (tag : List Char) : Bool :=
  match searchCpDD tag with
  | some (wheel_major, wheel_minor) =>
    decide (wheel_major < python_major) ||
      (decide (wheel_major = python_major) && decide (wheel_minor ≤ python_minor))
  | none => false

/-- The compatible-set membership check of `find_best_wheel` (lines 168-208):
stable-ABI tags dominate; otherwise an exact `CP_TAG` hit without a
conflicting plain `cp` tag, a universal `py3`-style tag, or the absence of
any tag, admits the wheel. -/
def wheelCompatibleDL (cfg : DLConfig) (filename : List Char) : Bool :=
  let py_tags := findTags filename
  if py_tags.isEmpty then true
  else
    let stable_abi_tags := py_tags.filter (fun t => inStr abiS t)
    if !stable_abi_tags.isEmpty then
      stable_abi_tags.any (stableAbiOk cfg.pythonMajor cfg.pythonMinor)
    else if py_tags.any (fun t => inStr cfg.cpTag t) &&
        (py_tags.filter
          (fun t => cpS.isPrefixOf t && !inStr cfg.cpTag t && !inStr abiS t)).isEmpty then
      true
    else py_tags.any (fun t => inStr py3S t || inStr py2py3S t)

/-- Tier 2 of the selection cascade (lines 151-155): the alternate platform
tags tried in order against every wheel. -/
def tierAlt (cpTag : List Char) (ws : List PyFile) : List (List Char) → Option PyFile
  | [] => none
  | t :: ts =>
    match ws.find? (fun w => inStr cpTag w.filename && inStr t w.filename) with
    | some w => some w
    | none => tierAlt cpTag ws ts

/-- The binary artifacts of a release list. -/
def wheelsOf (files : List PyFile) : List PyFile :=
  files.filter (fun f => decide (f.packagetype = bdistWheelS))

/-- The source artifacts of a release list. -/
def sdistsOf (files : List PyFile) : List PyFile :=
  files.filter (fun f => decide (f.packagetype = sdistS))

/-- Tier 1 test: exact `CP_TAG` and exact `PLATFORM_TAG` in the filename. -/
def tier1 (cfg : DLConfig) (ws : List PyFile) : Option PyFile :=
  ws.find? (fun w => inStr cfg.cpTag w.filename && inStr cfg.platformTag w.filename)

/-- Tier 3 test: universal wheel (`none-any` plus a `py3`-family tag). -/
def tier3 (ws : List PyFile) : Option PyFile :=
  ws.find? (fun w =>
    inStr noneAnyS w.filename && (inStr py3S w.filename || inStr py2py3S w.filename))

/-- Tier 4 test: first wheel passing the compatible-set check. -/
def tier4 (cfg : DLConfig) (ws : List PyFile) : Option PyFile :=
  ws.find? (fun w => wheelCompatibleDL cfg w.filename)

/-- Lines 136-224 of `find_best_wheel`: the selection cascade applied to the
resolved artifact list. -/
def selectFromFiles (cfg : DLConfig) (files : List PyFile) : Option PyFile :=
  let wheel_files := files.filter (fun f => decide (f.packagetype = bdistWheelS))
  match wheel_files.find?
      (fun w => inStr cfg.cpTag w.filename && inStr cfg.platformTag w.filename) with
  | some w => some w
  | none =>
    match tierAlt cfg.cpTag wheel_files cfg.altPlatformTags with
    | some w => some w
    | none =>
      match wheel_files.find? (fun w =>
          inStr noneAnyS w.filename &&
            (inStr py3S w.filename || inStr py2py3S w.filename)) with
      | some w => some w
      | none =>
        match wheel_files.find? (fun w => wheelCompatibleDL cfg w.filename) with
        | some w => some w
        | none =>
          match wheel_files with
          | w :: _ => some w
          | [] => (files.filter (fun f => decide (f.packagetype = sdistS))).head?

/-- `find_best_wheel(package_info, version)` of download_packages.py. -/
def find_best_wheel (cfg : DLConfig) (packageInfo : Option PackageInfo)
    (version : Option (List Char)) : Option PyFile :=
  match packageInfo with
  | none => none
  | some info =>
    let v := version.getD info.infoVersion
    let files := resolveFiles info.releases v
    if files.isEmpty then none
    else selectFromFiles cfg files

/- download_packages.py: download_file with resume and retry.

The network is modelled as an oracle giving, for each attempt index, the
behaviour of that attempt's `urlopen`/`read` sequence: a network-layer
error (`URLError`/`HTTPError`/`TimeoutError`), a non-network local error,
or a response carrying a `Content-Length` header and a chunk sequence.
`midFail` records a network error raised during the chunk loop, after the
listed chunks were already appended to the file.  The destination file is
an `Option (List Nat)` (absent, or present with its bytes); `remoteSize`
is the value returned by `get_file_size(url)` (0 when unknown). -/

/-- Behaviour of one download attempt as seen by `download_file`. -/
inductive AttemptOutcome where
  | netError : AttemptOutcome
  | otherError : AttemptOutcome
  | stream (contentLength : Nat) (chunks : List (List Nat)) (midFail : Bool) : AttemptOutcome
deriving DecidableEq

/-- The distinct `(bool, message)` results `download_file` can return. -/
inductive DLMsg where
  | alreadyComplete
  | downloaded
  | failedAfterMax
  | errorOther
  | errorIncomplete
  | maxRetriesExceeded
deriving DecidableEq

def MAX_RETRIES : Nat := 5

/-- The `for attempt in range(MAX_RETRIES)` loop of `download_file`
(lines 258-304).  `resumePos` was fixed before the loop and is never
recomputed; `fuel` counts the remaining loop iterations and `attempt` is
the Python loop index.  Returns the `(success, message)` pair and the
final file contents. -/
def attemptLoop (outcomes : Nat → AttemptOutcome) (resumePos : Nat) :
    Nat → Nat → Option (List Nat) → (Bool × DLMsg) × Option (List Nat)
  | 0, _, file => ((false, DLMsg.maxRetriesExceeded), file)
  | fuel + 1, attempt, file =>
    match outcomes attempt with
    | AttemptOutcome.netError =>
      if attempt < MAX_RETRIES - 1 then attemptLoop outcomes resumePos fuel (attempt + 1) file
      else ((false, DLMsg.failedAfterMax), file)
    | AttemptOutcome.otherError => ((false, DLMsg.errorOther), file)
    | AttemptOutcome.stream contentLength chunks midFail =>
      let base := if resumePos > 0 then file.getD [] else []
      let newFile := base ++ chunks.flatten
      let downloaded := resumePos + chunks.flatten.length
      let total := resumePos + contentLength
      if midFail then
        if attempt < MAX_RETRIES - 1 then
          attemptLoop outcomes resumePos fuel (attempt + 1) (some newFile)
        else ((false, DLMsg.failedAfterMax), some newFile)
      else if total > 0 ∧ downloaded ≠ total then
        ((false, DLMsg.errorIncomplete), some newFile)
      else ((true, DLMsg.downloaded), some newFile)

/-- `download_file(url, filepath, resume)` of download_packages.py
(lines 238-304), over the attempt oracle, the `get_file_size` probe result
and the pre-existing destination file. -/
def download_file (outcomes : Nat → AttemptOutcome) (remoteSize : Nat)
    (file : Option (List Nat)) (resume : Bool) : (Bool × DLMsg) × Option (List Nat) :=
  match file with
  | some content =>
    if remoteSize > 0 ∧ content.length = remoteSize then
      ((true, DLMsg.alreadyComplete), some content)
    else
      let resumePos := if resume ∧ content.length > 0 then content.length else 0
      attemptLoop outcomes resumePos MAX_RETRIES 0 (some content)
  | none => attemptLoop outcomes 0 MAX_RETRIES 0 none

/- Failure-file round trip: download_packages.py main (lines 535-543) writes
failed_packages.txt; retry_failed.py parse_failed_packages_file
(lines 30-57) reads it back. -/

/-- A `(package_name, version, error)` triple collected by `main`. -/
structure FailureRecord where
  name : List Char
  version : Option (List Char)
  reason : List Char
deriving DecidableEq

def hashS : List Char := "#".toList
def eqeqS : List Char := "==".toList
def sepS : List Char := "  # ".toList
def headerBodyS : List Char :=
  "# Failed packages - run retry_failed.py to retry these".toList
def headerS : List Char := headerBodyS ++ ['\n']

/-- One line of failed_packages.txt, without its terminating newline:
`f"{name}=={version}  # {error}"` when the version is truthy, else
`f"{name}  # {error}"`. -/
def failBody (r : FailureRecord) : List Char :=
  match r.version with
  | some v =>
    if v.isEmpty then r.name ++ sepS ++ r.reason
    else r.name ++ eqeqS ++ v ++ sepS ++ r.reason
  | none => r.name ++ sepS ++ r.reason

/-- One line of failed_packages.txt as `main` writes it. -/
def failLine (r : FailureRecord) : List Char := failBody r ++ ['\n']

/-- The full failed_packages.txt contents written by `main`: the comment
header followed by one line per failure record. -/
def writeFailedFile (records : List FailureRecord) : List Char :=
  headerS ++ (records.map failLine).flatten

/-- Split file contents into lines at newline characters (Python `for line
in f` followed by `line.strip()` never sees the terminators). -/
def splitLines : List Char → List (List Char)
  | [] => [[]]
  | c :: rest =>
    if c = '\n' then [] :: splitLines rest
    else
      match splitLines rest with
      | h :: t => (c :: h) :: t
      | [] => [[c]]

/-- The per-line body of `parse_failed_packages_file`: skip blank and
comment lines; on lines containing `==`, drop the inline comment and split
name from version at the first `==`, stripping the version's trailing
dots; otherwise record the comment-stripped line as a versionless name. -/
def parseLine (rawLine : List Char) : Option (List Char × Option (List Char)) :=
  let line := pyStrip rawLine
  if line.isEmpty || hashS.isPrefixOf line then none
  else if inStr eqeqS line then
    let package_line := pyStrip (beforeFirst hashS line)
    if inStr eqeqS package_line then
      match splitFirst eqeqS package_line with
      | some (n, v) => some (pyStrip n, some (pyRstripDots (pyStrip v)))
      | none => none
    else none
  else some (pyStrip (beforeFirst hashS line), none)

/-- `parse_failed_packages_file(failed_file)` of retry_failed.py over the
file contents. -/
def parse_failed_packages_file (content : List Char) :
    List (List Char × Option (List Char)) :=
  (splitLines content).filterMap parseLine

/- Concrete environments and filename families used by the claims. -/

/-- Clean-script globals on a linux/x86_64 host. -/
def cleanCfgLinuxX86 : CleanConfig := cleanGlobals linuxS x8664S

/-- Clean-script globals on a darwin/arm64 host. -/
def cleanCfgDarwinArm : CleanConfig := cleanGlobals darwinS arm64S

/-- download_packages globals on a linux/x86_64 host with interpreter
(major, minor). -/
def dlCfgLinuxX86 (major minor : Nat) : DLConfig :=
  downloadGlobals linuxS x8664S major minor

/-- The ASCII digit character of `m < 10`. -/
def digitChar (m : Nat) : Char := Char.ofNat (48 + m)

def abiPreS : List Char := "pkg-1.0-cp3".toList
def abiPostS : List Char := "-abi3-manylinux_x86_64.whl".toList
def exactMidS : List Char := "-cp3".toList
def exactPostS : List Char := "-manylinux_x86_64.whl".toList

/-- Stable-ABI wheel filename `pkg-1.0-cp3m-abi3-manylinux_x86_64.whl`. -/
def abiFileName (m : Nat) : List Char := abiPreS ++ [digitChar m] ++ abiPostS

/-- Exact-interpreter wheel filename
`pkg-1.0-cp3m-cp3m-manylinux_x86_64.whl`. -/
def exactFileName (m : Nat) : List Char :=
  abiPreS ++ [digitChar m] ++ exactMidS ++ [digitChar m] ++ exactPostS

/-- The condition under which the platform stage of `is_compatible_wheel`
(lines 37-49) returns False before any interpreter tag is inspected. -/
def platformRejects (cfg : CleanConfig) (filename : List Char) : Bool :=
  !inStr noneAnyS filename && truthyTag cfg.platformTag &&
    !inStr universal2S filename &&
    cfg.incompatiblePlatforms.any (fun p => inStr p filename)

/-- C1, counterexample.  The claim says the classifiers mark a stable-ABI
wheel with encoded version (3, m) incompatible with a target (3, n) when
n < m.  For `pkg-1.0-cp39-abi3-manylinux_x86_64.whl` (m = 9) and target
Python 3.8, `is_compatible_wheel` returns True: the stable-ABI test in its
first loop fails, but the second loop skips tags containing `-abi`, so the
function falls through to its permissive default.  (The compatible-set
check of `find_best_wheel` does reject it, as the second conjunct shows:
the two classifiers named by the claim disagree.) -/
theorem c1_counterexample :
    is_compatible_wheel cleanCfgLinuxX86 (abiFileName 9) 3 8 = true ∧
      wheelCompatibleDL (dlCfgLinuxX86 3 8) (abiFileName 9) = false := by
  decide

/-- C1, amended.  For a wheel whose only interpreter tag is the stable-ABI
tag `cp3m-abi3` (single-digit m), against target interpreter (3, n): the
compatible-set check inside `find_best_wheel` classifies it compatible iff
n ≥ m, but `is_compatible_wheel` classifies it compatible for every n —
for n < m it falls through to the permissive default instead of rejecting. -/
theorem c1_amended : ∀ m < 10, ∀ n < 13,
    wheelCompatibleDL (dlCfgLinuxX86 3 n) (abiFileName m) = decide (m ≤ n) ∧
      is_compatible_wheel cleanCfgLinuxX86 (abiFileName m) 3 n = true := by
  decide

/-- C1, witness for the amended theorem at m = 7, n = 9. -/
theorem c1_amended_witness :
    wheelCompatibleDL (dlCfgLinuxX86 3 9) (abiFileName 7) = decide (7 ≤ 9) ∧
      is_compatible_wheel cleanCfgLinuxX86 (abiFileName 7) 3 9 = true :=
  c1_amended 7 (by decide) 9 (by decide)

def zeroTagFileS : List Char := "pkg-arm64.whl".toList
def plainFileS : List Char := "pkg-1.0-data.whl".toList

/-- C4, counterexample.  The claim says a filename with zero extractable
interpreter/ABI tags is compatible with every target environment.
`pkg-arm64.whl` yields zero tags, yet on a linux/x86_64 host the platform
override (its name contains the incompatible platform string `arm64`)
rejects it before the tag stage is reached. -/
theorem c4_counterexample :
    findTags zeroTagFileS = [] ∧
      is_compatible_wheel cleanCfgLinuxX86 zeroTagFileS 3 12 = false := by
  decide

/-- C4, amended.  For a filename with zero extractable interpreter/ABI
tags, `is_compatible_wheel` returns true exactly when the platform
override of lines 40-49 does not fire; absence of interpreter information
alone never causes a rejection. -/
theorem c4_amended (cfg : CleanConfig) (fn : List Char) (pm pn : Nat)
    (h : findTags fn = []) :
    is_compatible_wheel cfg fn pm pn = !platformRejects cfg fn := by
  unfold is_compatible_wheel platformRejects pyTagCompatible
  rw [h]
  cases hna : inStr noneAnyS fn <;> cases ht : truthyTag cfg.platformTag <;>
    cases hu2 : inStr universal2S fn <;> simp [hna, ht, hu2]
  all_goals cases ha : cfg.incompatiblePlatforms.any (fun p => inStr p fn) <;> simp_all

/-- C4, witness for the amended theorem: a tagless, platform-neutral
filename on linux/x86_64 with Python 3.12. -/
theorem c4_amended_witness :
    is_compatible_wheel cleanCfgLinuxX86 plainFileS 3 12 =
      !platformRejects cleanCfgLinuxX86 plainFileS :=
  c4_amended cleanCfgLinuxX86 plainFileS 3 12 (by decide)

def u2FileS : List Char := "pkg-1.0-cp39-cp39-macosx_10_15_universal2.whl".toList
def cp39TagS : List Char := "cp39".toList

/-- C5, counterexample.  The claim says a filename whose only interpreter
tags are exact tags for (3, m), m different from the target minor, with no
stable-ABI and no universal tag, is classified incompatible.
`pkg-1.0-cp39-cp39-macosx_10_15_universal2.whl` carries exactly the tags
`cp39, cp39` and nothing universal on the interpreter side, yet against
target (3, 10) on a darwin/arm64 host `is_compatible_wheel` returns True:
the umbrella `universal2` platform check exits early, before any
interpreter tag is examined. -/
theorem c5_counterexample :
    findTags u2FileS = [cp39TagS, cp39TagS] ∧
      is_compatible_wheel cleanCfgDarwinArm u2FileS 3 10 = true := by
  decide

/-- When the platform tag is set, the filename has no `universal2` and no
`none-any`, and the platform stage does not reject, none of the
incompatible-platform strings occurs in the filename (with the redundant
`universal2` conjunct of the source loop intact). -/
theorem code_any_false (cfg : CleanConfig) (fn : List Char)
    (hna : inStr noneAnyS fn = false) (ht : truthyTag cfg.platformTag = true)
    (hu2 : inStr universal2S fn = false) (hpr : platformRejects cfg fn = false) :
    cfg.incompatiblePlatforms.any (fun p => inStr p fn && !inStr universal2S fn) = false := by
  unfold platformRejects at hpr
  rw [hna, ht, hu2] at hpr
  simp [List.any_eq_false] at hpr
  rw [List.any_eq_false]
  intro p hp
  simp [hpr p hp]

/-- C5, amended.  For every environment and filename containing neither
`none-any` nor `universal2` and not rejected by the platform override,
whose extracted interpreter tags are all plain exact `cp` tags (prefix
`cp`, no `-abi`, no `py3` or `py2.py3` substring) none of which contains
the target's `cp` tag as a substring: if some tag's leading
`cp`-digit-digit parse differs from the target pair, `is_compatible_wheel`
returns false.  Conversely, whenever the platform override does not fire
and some extracted tag contains the target's `cp` tag, it returns true.
In particular the claim's example `pkg-1.0-cp39-cp39-manylinux_x86_64.whl`
is compatible with (3, 9) and incompatible with (3, 10) on linux/x86_64. -/
theorem c5_amended :
    (∀ cfg fn pm pn, inStr noneAnyS fn = false →
      inStr universal2S fn = false →
      platformRejects cfg fn = false →
      findTags fn ≠ [] →
      (∀ t ∈ findTags fn, cpS.isPrefixOf t = true ∧ inStr abiS t = false ∧
        inStr py3S t = false ∧ inStr py2py3S t = false ∧
        inStr (cpS ++ natStr pm ++ natStr pn) t = false) →
      (findTags fn).any (fun t =>
        match searchCpDD t with
        | some (wM, wm) => decide (wM ≠ pm) || decide (wm ≠ pn)
        | none => false) = true →
      is_compatible_wheel cfg fn pm pn = false) ∧
    (∀ cfg fn pm pn, platformRejects cfg fn = false →
      (∃ t ∈ findTags fn, inStr (cpS ++ natStr pm ++ natStr pn) t = true) →
      is_compatible_wheel cfg fn pm pn = true) ∧
    is_compatible_wheel cleanCfgLinuxX86 (exactFileName 9) 3 9 = true ∧
    is_compatible_wheel cleanCfgLinuxX86 (exactFileName 9) 3 10 = false := by
  refine ⟨?_, ?_, by decide, by decide⟩
  · intro cfg fn pm pn hna hu2 hpr hne htags hrej
    have hloop1 : (findTags fn).any
        (tagMatchLoop1 (cpS ++ natStr pm ++ natStr pn) pm pn) = false := by
      rw [List.any_eq_false]
      intro t ht
      obtain ⟨h1, h2, h3, h4, h5⟩ := htags t ht
      unfold tagMatchLoop1
      rw [h5, h3, h4, h2]
      simp
    have hloop2 : (findTags fn).any (tagRejectLoop2 pm pn) = true := by
      rw [List.any_eq_true] at hrej ⊢
      obtain ⟨t, ht, hb⟩ := hrej
      obtain ⟨h1, h2, h3, h4, h5⟩ := htags t ht
      refine ⟨t, ht, ?_⟩
      cases hs : searchCpDD t with
      | none =>
        rw [hs] at hb
        simp at hb
      | some x =>
        obtain ⟨wM, wm⟩ := x
        rw [hs] at hb
        dsimp only at hb
        unfold tagRejectLoop2
        rw [h1, hs, h2]
        simp
        simpa using hb
    have hpy : pyTagCompatible fn pm pn = false := by
      unfold pyTagCompatible
      dsimp only
      cases hft : findTags fn with
      | nil => exact absurd hft hne
      | cons a l =>
        rw [hft] at hloop1 hloop2
        rw [List.isEmpty_cons, hloop1, hloop2]
        simp
    by_cases ht : truthyTag cfg.platformTag = true
    · have hanyf := code_any_false cfg fn hna ht hu2 hpr
      simp [is_compatible_wheel, hna, ht, hu2, hanyf, hpy]
    · have ht' : truthyTag cfg.platformTag = false := by simpa using ht
      simp [is_compatible_wheel, hna, ht', hpy]
  · intro cfg fn pm pn hpr hhit
    obtain ⟨t, ht0, hcp⟩ := hhit
    have hpy : pyTagCompatible fn pm pn = true := by
      unfold pyTagCompatible
      dsimp only
      cases hft : findTags fn with
      | nil =>
        rw [hft] at ht0
        exact absurd ht0 (List.not_mem_nil t)
      | cons a l =>
        have hany : (a :: l).any
            (tagMatchLoop1 (cpS ++ natStr pm ++ natStr pn) pm pn) = true := by
          rw [List.any_eq_true]
          refine ⟨t, by rw [← hft]; exact ht0, ?_⟩
          unfold tagMatchLoop1
          rw [hcp]
          simp
        rw [List.isEmpty_cons, hany]
        simp
    by_cases hna : inStr noneAnyS fn = true
    · simp [is_compatible_wheel, hna]
    · have hna' : inStr noneAnyS fn = false := by simpa using hna
      by_cases ht : truthyTag cfg.platformTag = true
      · by_cases hu2 : inStr universal2S fn = true
        · simp [is_compatible_wheel, hna', ht, hu2]
        · have hu2' : inStr universal2S fn = false := by simpa using hu2
          have hanyf := code_any_false cfg fn hna' ht hu2' hpr
          have hanyf' : (∀ x ∈ cfg.incompatiblePlatforms, inStr x fn = false) := by
            rw [List.any_eq_false] at hanyf
            intro x hx
            simpa [hu2'] using hanyf x hx
          simp [is_compatible_wheel, hna', ht, hu2', hpy]
          exact hanyf'
      · have ht' : truthyTag cfg.platformTag = false := by simpa using ht
        simp [is_compatible_wheel, hna', ht', hpy]

/-- C5, witness for the amended theorem: both directions applied to the
claim's example wheel on linux/x86_64 — rejected at target (3, 10) via the
first conjunct, accepted at target (3, 9) via the second with the tag
`cp39` as the matching witness. -/
theorem c5_amended_witness :
    is_compatible_wheel cleanCfgLinuxX86 (exactFileName 9) 3 10 = false ∧
    is_compatible_wheel cleanCfgLinuxX86 (exactFileName 9) 3 9 = true :=
  ⟨c5_amended.1 cleanCfgLinuxX86 (exactFileName 9) 3 10 (by decide) (by decide)
      (by decide) (by decide) (by decide) (by decide),
    c5_amended.2.1 cleanCfgLinuxX86 (exactFileName 9) 3 9 (by decide)
      ⟨cp39TagS, by decide, by decide⟩⟩

/-- C6, confirmed.  Whenever the platform tag is set and the filename
mentions one of the incompatible platform strings while containing neither
`universal2` nor `none-any`, `is_compatible_wheel` returns false — for
every interpreter version, hence also when an interpreter tag in the
filename matches the target exactly: the platform rejection precedes and
overrides the interpreter-tag stage. -/
theorem c6_platform_override (cfg : CleanConfig) (fn p : List Char) (pm pn : Nat)
    (ht : truthyTag cfg.platformTag = true)
    (hp : p ∈ cfg.incompatiblePlatforms) (hin : inStr p fn = true)
    (hu2 : inStr universal2S fn = false) (hna : inStr noneAnyS fn = false) :
    is_compatible_wheel cfg fn pm pn = false := by
  simp [is_compatible_wheel, hna, ht, hu2]
  intro hall
  exact absurd hin (by simp [hall p hp])

def c6FileS : List Char := "pkg-1.0-cp312-cp312-manylinux_arm64.whl".toList

/-- C6, witness: an arm64 wheel whose interpreter tag `cp312` matches the
target Python 3.12 exactly is still rejected on linux/x86_64. -/
theorem c6_platform_override_witness :
    is_compatible_wheel cleanCfgLinuxX86 c6FileS 3 12 = false :=
  c6_platform_override cleanCfgLinuxX86 c6FileS arm64S 3 12 (by decide)
    (by decide) (by decide) (by decide) (by decide)

/-- With no binary artifacts at all, the alternate-platform tier finds
nothing, whatever the alternate tag list is. -/
theorem tierAlt_nil (cp : List Char) (ts : List (List Char)) : tierAlt cp [] ts = none := by
  induction ts with
  | nil => rfl
  | cons t ts ih => simp [tierAlt, ih, List.find?]

/-- C7, confirmed.  The selection in `find_best_wheel` is a strict
first-match cascade: (1) exact interpreter tag and exact platform tag,
(2) exact interpreter tag and an allowlisted alternate platform tag,
(3) universal `none-any` wheel with a `py3`-family tag, (4) the first
wheel passing the compatible-set check, (5) the first wheel at all, and
(6) the first source artifact exactly when no binary artifact exists;
each earlier tier's match is returned over every later tier's. -/
theorem c7_priority_cascade (cfg : DLConfig) (files : List PyFile) :
    (∀ w, tier1 cfg (wheelsOf files) = some w → selectFromFiles cfg files = some w) ∧
    (tier1 cfg (wheelsOf files) = none →
      ∀ w, tierAlt cfg.cpTag (wheelsOf files) cfg.altPlatformTags = some w →
        selectFromFiles cfg files = some w) ∧
    (tier1 cfg (wheelsOf files) = none →
      tierAlt cfg.cpTag (wheelsOf files) cfg.altPlatformTags = none →
      ∀ w, tier3 (wheelsOf files) = some w → selectFromFiles cfg files = some w) ∧
    (tier1 cfg (wheelsOf files) = none →
      tierAlt cfg.cpTag (wheelsOf files) cfg.altPlatformTags = none →
      tier3 (wheelsOf files) = none →
      ∀ w, tier4 cfg (wheelsOf files) = some w → selectFromFiles cfg files = some w) ∧
    (tier1 cfg (wheelsOf files) = none →
      tierAlt cfg.cpTag (wheelsOf files) cfg.altPlatformTags = none →
      tier3 (wheelsOf files) = none → tier4 cfg (wheelsOf files) = none →
      wheelsOf files ≠ [] → selectFromFiles cfg files = (wheelsOf files).head?) ∧
    (wheelsOf files = [] → selectFromFiles cfg files = (sdistsOf files).head?) := by
  unfold selectFromFiles tier1 tier3 tier4 wheelsOf sdistsOf
  dsimp only
  refine ⟨?_, ?_, ?_, ?_, ?_, ?_⟩
  · intro w h
    rw [h]
  · intro h1 w h2
    rw [h1, h2]
  · intro h1 h2 w h3
    rw [h1, h2, h3]
  · intro h1 h2 h3 w h4
    rw [h1, h2, h3, h4]
  · intro h1 h2 h3 h4 h5
    rw [h1, h2, h3, h4]
    cases hw : files.filter (fun f => decide (f.packagetype = bdistWheelS)) with
    | nil => exact absurd hw h5
    | cons a l => simp [hw]
  · intro h
    rw [h]
    simp [tierAlt_nil, List.find?]

def c7WheelS : List Char := "pkg-1.0-cp312-cp312-linux_x86_64.whl".toList
def c7UnivS : List Char := "pkg-1.0-py3-none-any.whl".toList
def c7SdistNameS : List Char := "pkg-1.0.tar.gz".toList
def c7W1 : PyFile := ⟨c7WheelS, [], bdistWheelS, 0⟩
def c7Files : List PyFile :=
  [⟨c7SdistNameS, [], sdistS, 0⟩, ⟨c7UnivS, [], bdistWheelS, 0⟩, c7W1]

/-- C7, witness: on linux/x86_64 with Python 3.12, a release holding a
source artifact, a universal wheel and an exact cp312/linux_x86_64 wheel
selects the exact wheel through tier 1. -/
theorem c7_priority_cascade_witness :
    tier1 (dlCfgLinuxX86 3 12) (wheelsOf c7Files) = some c7W1 ∧
      selectFromFiles (dlCfgLinuxX86 3 12) c7Files = some c7W1 :=
  ⟨by decide, (c7_priority_cascade (dlCfgLinuxX86 3 12) c7Files).1 c7W1 (by decide)⟩

/-- When the pattern does not occur, Python `split(pat)[0]` is the whole
string. -/
theorem beforeFirst_of_not_in (pat v : List Char) (h : inStr pat v = false) :
    beforeFirst pat v = v := by
  induction v with
  | nil => rfl
  | cons c rest ih =>
    unfold inStr at h
    simp [Bool.or_eq_false_iff] at h
    unfold beforeFirst
    rw [h.1, ih h.2]
    simp

/-- If the fuzzy loop found nothing, every candidate key with the version
base as a prefix maps to an empty artifact list. -/
theorem fuzzySearch_nil_all (rel : List (List Char × List PyFile)) (base : List Char)
    (ks : List (List Char)) (h : fuzzySearch rel base ks = []) :
    ∀ k ∈ ks, base.isPrefixOf k = true → dictGet rel k = [] := by
  induction ks with
  | nil => simp
  | cons a as ih =>
    intro k hk hpk
    rw [fuzzySearch] at h
    rcases List.mem_cons.mp hk with rfl | hk2
    · rw [hpk] at h
      simp only [if_true] at h
      cases hd : dictGet rel k with
      | nil => rfl
      | cons b bs =>
        rw [hd] at h
        simp at h
    · by_cases hpa : base.isPrefixOf a = true
      · rw [hpa] at h
        simp only [if_true] at h
        cases hd : dictGet rel a with
        | nil =>
          rw [hd] at h
          simp at h
          exact ih h k hk2 hpk
        | cons b bs =>
          rw [hd] at h
          simp at h
      · rw [Bool.not_eq_true] at hpa
        rw [hpa] at h
        simp only [Bool.false_eq_true, if_false] at h
        exact ih h k hk2 hpk

/-- Membership in `insertDesc`. -/
theorem mem_insertDesc (x k : List Char) (l : List (List Char)) :
    k ∈ insertDesc x l ↔ k = x ∨ k ∈ l := by
  induction l with
  | nil => simp [insertDesc]
  | cons y ys ih =>
    unfold insertDesc
    split
    · simp [List.mem_cons]
    · simp [List.mem_cons, ih]
      tauto

/-- Sorting the keys does not change membership. -/
theorem mem_sortDesc (k : List Char) (l : List (List Char)) : k ∈ sortDesc l ↔ k ∈ l := by
  induction l with
  | nil => simp [sortDesc]
  | cons x xs ih => simp [sortDesc, mem_insertDesc, ih]

/-- An empty resolution means the exact version had no files. -/
theorem resolve_nil_exact (rel : List (List Char × List PyFile)) (v : List Char)
    (h : resolveFiles rel v = []) : dictGet rel v = [] := by
  unfold resolveFiles at h
  dsimp only at h
  split_ifs at h <;> simp_all

/-- An empty resolution means the `.post`-stripped version had no files. -/
theorem resolve_nil_stripped (rel : List (List Char × List PyFile)) (v : List Char)
    (h : resolveFiles rel v = []) : dictGet rel (beforeFirst postS v) = [] := by
  unfold resolveFiles at h
  dsimp only at h
  split_ifs at h <;> simp_all [beforeFirst_of_not_in]

/-- An empty resolution means the `.post0`-removed variant had no files. -/
theorem resolve_nil_replaced (rel : List (List Char × List PyFile)) (v : List Char)
    (h : resolveFiles rel v = []) (hs : post0S.isSuffixOf v = true) :
    dictGet rel (replaceAllNE '.' post0TailS v) = [] := by
  unfold resolveFiles at h
  dsimp only at h
  split_ifs at h <;> simp_all

/-- An empty resolution means the `.post0`-appended variant had no files. -/
theorem resolve_nil_appended (rel : List (List Char × List PyFile)) (v : List Char)
    (h : resolveFiles rel v = []) (hs : post0S.isSuffixOf v = false)
    (hp : inStr postS v = false) : dictGet rel (v ++ post0S) = [] := by
  unfold resolveFiles at h
  dsimp only at h
  split_ifs at h <;> simp_all

/-- An empty resolution means the fuzzy search over all keys also failed. -/
theorem resolve_nil_fuzzy (rel : List (List Char × List PyFile)) (v : List Char)
    (h : resolveFiles rel v = []) :
    fuzzySearch rel (if inStr postS v = true then beforeFirst postS v else v)
      (sortDesc (rel.map Prod.fst)) = [] := by
  unfold resolveFiles at h
  dsimp only at h
  split_ifs at h <;> simp_all

def v2000S : List Char := "2.0.0".toList
def v2000post0S : List Char := "2.0.0.post0".toList

/-- C8, confirmed.  Version normalization in `find_best_wheel`: an exact
hit is served as is; otherwise the `.post`-stripped variant is tried, then
the `.post0` add/remove variant, then the descending prefix fuzzy search.
In particular a lookup of 2.0.0 when only 2.0.0.post0 exists resolves to
the 2.0.0.post0 artifacts, and an empty result is possible only when the
exact version, the stripped variant, the `.post0` variant and every
prefix-matching key all have empty artifact lists. -/
theorem c8_version_normalization :
    (∀ rel v, dictGet rel v ≠ [] → resolveFiles rel v = dictGet rel v) ∧
    (∀ fs : List PyFile, fs ≠ [] → resolveFiles [(v2000post0S, fs)] v2000S = fs) ∧
    (∀ rel v, dictGet rel v = [] → inStr postS v = true →
      dictGet rel (beforeFirst postS v) ≠ [] →
      resolveFiles rel v = dictGet rel (beforeFirst postS v)) ∧
    (∀ rel v, dictGet rel v = [] → inStr postS v = false →
      post0S.isSuffixOf v = false → dictGet rel (v ++ post0S) ≠ [] →
      resolveFiles rel v = dictGet rel (v ++ post0S)) ∧
    (∀ rel v, resolveFiles rel v = [] →
      dictGet rel v = [] ∧
      dictGet rel (beforeFirst postS v) = [] ∧
      (post0S.isSuffixOf v = true → dictGet rel (replaceAllNE '.' post0TailS v) = []) ∧
      (post0S.isSuffixOf v = false → inStr postS v = false →
        dictGet rel (v ++ post0S) = []) ∧
      ∀ k ∈ rel.map Prod.fst,
        (if inStr postS v = true then beforeFirst postS v else v).isPrefixOf k = true →
          dictGet rel k = []) := by
  refine ⟨?_, ?_, ?_, ?_, ?_⟩
  · intro rel v h
    cases hd : dictGet rel v with
    | nil => exact absurd hd h
    | cons a l => simp [resolveFiles, hd]
  · intro fs h
    cases fs with
    | nil => exact absurd rfl h
    | cons a l => rfl
  · intro rel v h1 h2 h3
    cases hd : dictGet rel (beforeFirst postS v) with
    | nil => exact absurd hd h3
    | cons a l => simp [resolveFiles, h1, h2, hd]
  · intro rel v h1 h2 h3 h4
    cases hd : dictGet rel (v ++ post0S) with
    | nil => exact absurd hd h4
    | cons a l => simp [resolveFiles, h1, h2, h3, hd]
  · intro rel v h
    refine ⟨resolve_nil_exact rel v h, resolve_nil_stripped rel v h,
      resolve_nil_replaced rel v h, resolve_nil_appended rel v h, ?_⟩
    intro k hk hpk
    exact fuzzySearch_nil_all rel _ _ (resolve_nil_fuzzy rel v h) k
      ((mem_sortDesc k _).mpr hk) hpk

def c8File : PyFile := ⟨v2000post0S, [], bdistWheelS, 0⟩

/-- C8, witness: the claim's example instance, resolving 2.0.0 to the
artifacts stored under 2.0.0.post0. -/
theorem c8_version_normalization_witness :
    resolveFiles [(v2000post0S, [c8File])] v2000S = [c8File] :=
  c8_version_normalization.2.1 [c8File] (by decide)

/-- An attempt oracle giving one behaviour for the first attempt and
another for every retry. -/
def twoOutcomes (a b : AttemptOutcome) : Nat → AttemptOutcome
  | 0 => a
  | _ + 1 => b

/-- Attempt oracle for the C2 counterexample: the first attempt completes
with 3 of 10 promised bytes (size mismatch); every further attempt would
deliver a consistent 7-byte body and succeed. -/
def c2Outcomes : Nat → AttemptOutcome :=
  twoOutcomes (AttemptOutcome.stream 10 [[1, 2, 3]] false)
    (AttemptOutcome.stream 7 [[4, 5, 6, 7, 8, 9, 10]] false)

/-- C2, counterexample.  The claim says a size mismatch is retried up to
MAX_RETRIES like a transient network error.  In the run below the first
attempt ends with a mismatch while every later attempt would succeed; had
the mismatch been retried even once the call would return success, but
`download_file` returns the generic failure immediately: the mismatch is
raised as a plain `Exception`, which the non-network handler returns
without retrying.  The second conjunct shows the same retry behaviour
would indeed succeed. -/
theorem c2_counterexample :
    download_file c2Outcomes 0 none true =
      ((false, DLMsg.errorIncomplete), some [1, 2, 3]) ∧
    download_file (fun _ => AttemptOutcome.stream 7 [[4, 5, 6, 7, 8, 9, 10]] false)
        0 none true = ((true, DLMsg.downloaded), some [4, 5, 6, 7, 8, 9, 10]) := by
  decide

/-- C2, amended.  A completed transfer whose byte count differs from the
expected total is treated as a failure, not a success — but it is returned
immediately as a hard Failure for the whole call (generic exception path),
without consuming any further retry attempt: the result does not depend on
the oracle's behaviour at any attempt index beyond 0. -/
theorem c2_amended (outcomes : Nat → AttemptOutcome) (remoteSize clen : Nat)
    (chunks : List (List Nat)) (resume : Bool)
    (h0 : outcomes 0 = AttemptOutcome.stream clen chunks false)
    (hpos : 0 < clen) (hmis : chunks.flatten.length ≠ clen) :
    download_file outcomes remoteSize none resume =
      ((false, DLMsg.errorIncomplete), some chunks.flatten) := by
  have hmis2 : ¬(List.map List.length chunks).sum = clen := by simpa using hmis
  unfold download_file
  rw [show MAX_RETRIES = 4 + 1 from rfl]
  rw [attemptLoop, h0]
  simp [hpos, hmis2]

/-- C2, witness for the amended theorem: first attempt delivers 3 of 10
bytes; the failure is immediate. -/
theorem c2_amended_witness :
    download_file c2Outcomes 0 none true =
      ((false, DLMsg.errorIncomplete), some ([[1, 2, 3]] : List (List Nat)).flatten) :=
  c2_amended c2Outcomes 0 10 [[1, 2, 3]] true rfl (by decide) (by decide)

/-- Attempt oracle for the C3 counterexample: the first attempt writes the
bytes 1, 2, 3 and then hits a network error; the retry delivers a full
consistent 10-byte body. -/
def c3Outcomes : Nat → AttemptOutcome :=
  twoOutcomes (AttemptOutcome.stream 10 [[1, 2, 3]] true)
    (AttemptOutcome.stream 10 [[9, 9, 9, 9, 9, 9, 9, 9, 9, 9]] false)

/-- C3, counterexample.  The claim says the partial bytes written by a
failed attempt are preserved and the next attempt resumes from them.
Starting from an absent destination, the first attempt writes bytes
1, 2, 3 and fails mid-transfer; the retry reopens the file in truncating
mode (the resume position was fixed at 0 before the loop and is never
recomputed) and the final file holds only the retry's bytes — the partial
bytes 1, 2, 3 were overwritten, not resumed from. -/
theorem c3_counterexample :
    download_file c3Outcomes 0 none true =
      ((true, DLMsg.downloaded), some [9, 9, 9, 9, 9, 9, 9, 9, 9, 9]) := by
  decide

/-- C3, amended.  The resume position is computed once per call, before the
retry loop, and is not updated between attempts.  Consequently, when the
call started with no file on disk (resume position 0), each retry
truncates and the failed attempt's partial bytes are discarded; when the
call started with a nonempty file (resume position equal to its length),
each retry appends after the failed attempt's partial bytes while still
requesting the same byte range, duplicating data instead of resuming from
the true on-disk position. -/
theorem c3_amended (clen0 clen1 : Nat) (ch0 ch1 : List (List Nat)) (c : List Nat)
    (hc : c ≠ []) :
    (download_file (twoOutcomes (AttemptOutcome.stream clen0 ch0 true)
        (AttemptOutcome.stream clen1 ch1 false)) 0 none true).2 = some ch1.flatten ∧
    (download_file (twoOutcomes (AttemptOutcome.stream clen0 ch0 true)
        (AttemptOutcome.stream clen1 ch1 false)) 0 (some c) true).2 =
      some (c ++ ch0.flatten ++ ch1.flatten) := by
  have hlen : 0 < c.length := List.length_pos.mpr hc
  constructor
  · unfold download_file
    rw [show MAX_RETRIES = 4 + 1 from rfl]
    rw [attemptLoop]
    simp only [twoOutcomes]
    rw [show (4:Nat) = 3 + 1 from rfl]
    rw [attemptLoop]
    simp only [twoOutcomes]
    simp [MAX_RETRIES]
    split <;> rfl
  · unfold download_file
    rw [show MAX_RETRIES = 4 + 1 from rfl]
    simp only [show ¬((0:Nat) > 0 ∧ c.length = 0) from by omega, if_false, hlen,
      if_pos, true_and]
    rw [attemptLoop]
    simp only [twoOutcomes]
    rw [show (4:Nat) = 3 + 1 from rfl]
    rw [attemptLoop]
    simp only [twoOutcomes]
    simp [MAX_RETRIES, hlen]
    split <;> simp

/-- C3, witness for the amended theorem: starting file `[7]`, failed first
attempt wrote `[1]`, retry delivered `[2]`. -/
theorem c3_amended_witness :
    (download_file (twoOutcomes (AttemptOutcome.stream 5 [[1]] true)
        (AttemptOutcome.stream 5 [[2]] false)) 0 none true).2 =
      some ([[2]] : List (List Nat)).flatten ∧
    (download_file (twoOutcomes (AttemptOutcome.stream 5 [[1]] true)
        (AttemptOutcome.stream 5 [[2]] false)) 0 (some [7]) true).2 =
      some ([7] ++ ([[1]] : List (List Nat)).flatten ++ ([[2]] : List (List Nat)).flatten) :=
  c3_amended 5 5 [[1]] [[2]] [7] (by decide)

/-- C9, confirmed.  When the destination already exists with exactly the
remote-reported size (and that size is known, i.e. positive), the call
returns the already-complete result with the file untouched, for every
network behaviour — no attempt is ever started. -/
theorem c9_already_complete (outcomes : Nat → AttemptOutcome) (remoteSize : Nat)
    (content : List Nat) (resume : Bool) (h1 : 0 < remoteSize)
    (h2 : content.length = remoteSize) :
    download_file outcomes remoteSize (some content) resume =
      ((true, DLMsg.alreadyComplete), some content) := by
  unfold download_file
  dsimp only
  rw [if_pos ⟨h1, h2⟩]

/-- C9, witness: a complete 3-byte file is reported already complete even
under an oracle that always fails. -/
theorem c9_already_complete_witness :
    download_file (fun _ => AttemptOutcome.netError) 3 (some [1, 2, 3]) true =
      ((true, DLMsg.alreadyComplete), some [1, 2, 3]) :=
  c9_already_complete (fun _ => AttemptOutcome.netError) 3 [1, 2, 3] true
    (by decide) (by decide)

theorem dropWhile_headOk (p : Char → Bool) (s : List Char)
    (h : s.head?.all (fun c => !p c) = true) : List.dropWhile p s = s := by
  cases s with
  | nil => rfl
  | cons c r =>
    simp at h
    simp [List.dropWhile_cons, h]

theorem dropWhile_append_headOk (p : Char → Bool) (a b : List Char)
    (hb : b.head?.all (fun c => !p c) = true) :
    List.dropWhile p (a ++ b) = List.dropWhile p a ++ b := by
  induction a with
  | nil =>
    rw [List.nil_append, List.dropWhile_nil, List.nil_append]
    exact dropWhile_headOk p b hb
  | cons c a ih =>
    by_cases hc : p c = true
    · simp [List.dropWhile_cons, hc, ih]
    · simp [List.dropWhile_cons, hc]

theorem pyStripRight_append (u v : List Char)
    (hu : u.getLast?.all (fun c => !pySpace c) = true) :
    pyStripRight (u ++ v) = u ++ pyStripRight v := by
  unfold pyStripRight
  rw [List.reverse_append]
  rw [dropWhile_append_headOk pySpace v.reverse u.reverse (by
    rw [List.head?_reverse]
    exact hu)]
  rw [List.reverse_append, List.reverse_reverse]

theorem pyStripRight_lastOk (s : List Char)
    (h : s.getLast?.all (fun c => !pySpace c) = true) : pyStripRight s = s := by
  unfold pyStripRight
  rw [dropWhile_headOk pySpace s.reverse (by rw [List.head?_reverse]; exact h)]
  exact s.reverse_reverse

theorem pyStrip_eq_right (s : List Char) :
    pyStrip s = pyStripRight (s.dropWhile pySpace) := rfl

theorem pyStrip_ok (s : List Char)
    (h1 : s.head?.all (fun c => !pySpace c) = true)
    (h2 : s.getLast?.all (fun c => !pySpace c) = true) : pyStrip s = s := by
  rw [pyStrip_eq_right, dropWhile_headOk pySpace s h1, pyStripRight_lastOk s h2]

theorem pyRstripDots_lastOk (s : List Char)
    (h : s.getLast?.all (fun c => !(c == '.')) = true) : pyRstripDots s = s := by
  unfold pyRstripDots
  rw [dropWhile_headOk _ s.reverse (by rw [List.head?_reverse]; exact h)]
  exact s.reverse_reverse

theorem mem_pyStripRight (c : Char) (s : List Char) (h : c ∈ pyStripRight s) : c ∈ s := by
  unfold pyStripRight at h
  rw [List.mem_reverse] at h
  have := (List.dropWhile_sublist pySpace).mem h
  rwa [List.mem_reverse] at this

theorem beforeFirst_cons (pat : List Char) (c : Char) (rest : List Char) :
    beforeFirst pat (c :: rest) =
      if pat.isPrefixOf (c :: rest) then [] else c :: beforeFirst pat rest := rfl

theorem inStr_cons (pat : List Char) (c : Char) (rest : List Char) :
    inStr pat (c :: rest) = (pat.isPrefixOf (c :: rest) || inStr pat rest) := rfl

theorem beforeFirst_hash_append (a b : List Char)
    (ha : a.all (fun c => !(c == '#')) = true) :
    beforeFirst hashS (a ++ b) = a ++ beforeFirst hashS b := by
  induction a with
  | nil => simp
  | cons c a ih =>
    simp at ha
    have hpre : hashS.isPrefixOf (c :: (a ++ b)) = false := by
      simp [hashS, List.isPrefixOf]
      exact fun h => absurd h.symm ha.1
    rw [List.cons_append, beforeFirst_cons, hpre]
    simp [ih (by simp; exact ha.2)]

theorem inStr_eqeq_of_no_eq (s : List Char)
    (hs : s.all (fun c => !(c == '=')) = true) : inStr eqeqS s = false := by
  induction s with
  | nil => rfl
  | cons c r ih =>
    simp at hs
    have hpre : eqeqS.isPrefixOf (c :: r) = false := by
      simp [eqeqS, List.isPrefixOf]
      exact fun h => absurd h.symm hs.1
    rw [inStr_cons, hpre]
    simp [ih (by simp; exact hs.2)]

theorem isPrefixOf_self_append (p b : List Char) : p.isPrefixOf (p ++ b) = true := by
  induction p with
  | nil => simp [List.isPrefixOf]
  | cons c p ih => simp [List.isPrefixOf, ih]

theorem inStr_self_append (pat b : List Char) : inStr pat (pat ++ b) = true := by
  cases pat with
  | nil =>
    cases b with
    | nil => rfl
    | cons c r => simp [inStr_cons, List.isPrefixOf]
  | cons p ps =>
    rw [List.cons_append, inStr_cons, ← List.cons_append, isPrefixOf_self_append]
    rfl

theorem inStr_sandwich (pat a b : List Char) : inStr pat (a ++ pat ++ b) = true := by
  induction a with
  | nil =>
    rw [List.nil_append]
    exact inStr_self_append pat b
  | cons c a ih =>
    rw [List.cons_append, List.cons_append, inStr_cons, ih]
    simp

theorem splitFirst_cons (pat : List Char) (c : Char) (rest : List Char) :
    splitFirst pat (c :: rest) =
      if pat.isPrefixOf (c :: rest) then some ([], (c :: rest).drop pat.length)
      else
        match splitFirst pat rest with
        | some (a, b) => some (c :: a, b)
        | none => none := rfl

theorem splitFirst_eqeq_sandwich (a b : List Char)
    (ha : a.all (fun c => !(c == '=')) = true) :
    splitFirst eqeqS (a ++ eqeqS ++ b) = some (a, b) := by
  induction a with
  | nil =>
    rw [List.nil_append]
    rw [show eqeqS ++ b = '=' :: '=' :: b from rfl]
    rw [splitFirst_cons]
    rw [show eqeqS.isPrefixOf ('=' :: '=' :: b) = true from by
      simp [eqeqS, List.isPrefixOf]]
    simp [eqeqS]
  | cons c a ih =>
    simp at ha
    have hpre : eqeqS.isPrefixOf (c :: ((a ++ eqeqS) ++ b)) = false := by
      simp [eqeqS, List.isPrefixOf]
      exact fun h => absurd h.symm ha.1
    rw [List.cons_append, List.cons_append, splitFirst_cons, hpre]
    rw [ih (by simp; exact ha.2)]
    simp

theorem splitLines_cons (c : Char) (rest : List Char) :
    splitLines (c :: rest) =
      if c = '\n' then [] :: splitLines rest
      else
        match splitLines rest with
        | h :: t => (c :: h) :: t
        | [] => [[c]] := rfl

theorem splitLines_append (a b : List Char)
    (ha : a.all (fun c => !(c == '\n')) = true) :
    splitLines (a ++ '\n' :: b) = a :: splitLines b := by
  induction a with
  | nil => simp [splitLines_cons]
  | cons c a ih =>
    simp at ha
    rw [List.cons_append, splitLines_cons, if_neg ha.1, ih (by simp; exact ha.2)]

theorem splitLines_ne_nil (s : List Char) : splitLines s ≠ [] := by
  cases s with
  | nil => simp [splitLines]
  | cons c r =>
    rw [splitLines_cons]
    by_cases hc : c = '\n'
    · simp [hc]
    · rw [if_neg hc]
      cases h : splitLines r with
      | nil => simp
      | cons x t => simp

def spaceHashS : List Char := [' ', ' ', '#']

def headOkB (s : List Char) : Bool := s.head?.all (fun c => !pySpace c)
def lastOkB (s : List Char) : Bool := s.getLast?.all (fun c => !pySpace c)
def plainChars (s : List Char) : Bool :=
  s.all (fun c => !(c == '#') && !(c == '=') && !(c == '\n'))
def goodName (n : List Char) : Bool :=
  !n.isEmpty && headOkB n && lastOkB n && plainChars n
def goodVersion : Option (List Char) → Bool
  | none => true
  | some v => !v.isEmpty && headOkB v && lastOkB v && plainChars v &&
      !(v.getLast? == some '.')
def goodReason (e : List Char) : Bool := e.all (fun c => !(c == '=') && !(c == '\n'))
def goodRecord (r : FailureRecord) : Bool :=
  goodName r.name && goodVersion r.version && goodReason r.reason

theorem stripLine (w e : List Char) (hw1 : headOkB w = true) (hw2 : lastOkB w = true)
    (hwne : w ≠ []) :
    pyStrip (w ++ sepS ++ e) = (w ++ spaceHashS) ++ pyStripRight (' ' :: e) := by
  have hre : w ++ sepS ++ e = (w ++ spaceHashS) ++ (' ' :: e) := by
    simp [sepS, spaceHashS]
  rw [hre, pyStrip_eq_right]
  rw [dropWhile_headOk pySpace _ (by
    cases w with
    | nil => exact absurd rfl hwne
    | cons c r =>
      rw [List.cons_append, List.cons_append]
      simpa [headOkB] using hw1)]
  rw [pyStripRight_append _ _ (by
    rw [List.getLast?_append]
    simp [spaceHashS, pySpace])]

theorem beforeHash_line (w t : List Char) (hwp : w.all (fun c => !(c == '#')) = true) :
    beforeFirst hashS ((w ++ spaceHashS) ++ t) = w ++ [' ', ' '] := by
  have hre : (w ++ spaceHashS) ++ t = (w ++ [' ', ' ']) ++ ('#' :: t) := by
    simp [spaceHashS]
  rw [hre]
  rw [beforeFirst_hash_append _ _ (by
    rw [List.all_eq_true]
    rw [List.all_eq_true] at hwp
    intro x hx
    rw [List.mem_append] at hx
    rcases hx with hx | hx
    · exact hwp x hx
    · rw [List.mem_cons, List.mem_cons] at hx
      rcases hx with rfl | rfl | hx
      · decide
      · decide
      · exact absurd hx (List.not_mem_nil x))]
  rw [beforeFirst_cons]
  rw [show hashS.isPrefixOf ('#' :: t) = true from by simp [hashS, List.isPrefixOf]]
  simp

theorem strip_wss (w : List Char) (hw1 : headOkB w = true) (hw2 : lastOkB w = true) :
    pyStrip (w ++ [' ', ' ']) = w := by
  cases w with
  | nil => decide
  | cons c r =>
    rw [pyStrip_eq_right]
    rw [dropWhile_headOk pySpace _ (by
      rw [List.cons_append]
      simpa [headOkB] using hw1)]
    rw [pyStripRight_append _ _ hw2]
    rw [show pyStripRight [' ', ' '] = [] from rfl]
    exact List.append_nil _

/-- Core of the round trip: a written failure line parses back to its name
and version, for records passing `goodRecord`. -/
theorem parseLine_failBody (r : FailureRecord) (h : goodRecord r = true) :
    parseLine (failBody r) = some (r.name, r.version) := by
  obtain ⟨n, ver, e⟩ := r
  simp only [goodRecord, Bool.and_eq_true] at h
  obtain ⟨⟨hgn, hgv⟩, hge⟩ := h
  simp only [goodName, Bool.and_eq_true] at hgn
  obtain ⟨⟨⟨hne, hhead⟩, hlast⟩, hplain⟩ := hgn
  cases n with
  | nil => simp at hne
  | cons c n' =>
  have hcmem : (fun x => !(x == '#') && !(x == '=') && !(x == '\n')) c = true :=
    List.all_eq_true.mp hplain c (List.mem_cons_self c n')
  simp only [Bool.and_eq_true, Bool.not_eq_true', beq_eq_false_iff_ne, ne_eq] at hcmem
  obtain ⟨⟨hch, hce⟩, hcn⟩ := hcmem
  cases ver with
  | none =>
    show parseLine ((c :: n') ++ sepS ++ e) = some (c :: n', none)
    unfold parseLine
    dsimp only
    rw [stripLine (c :: n') e hhead hlast (by simp)]
    have hcons : ((c :: n') ++ spaceHashS) ++ pyStripRight (' ' :: e) =
        c :: ((n' ++ spaceHashS) ++ pyStripRight (' ' :: e)) := by simp
    have hor : ((((c :: n') ++ spaceHashS) ++ pyStripRight (' ' :: e)).isEmpty ||
        hashS.isPrefixOf (((c :: n') ++ spaceHashS) ++ pyStripRight (' ' :: e))) = false := by
      rw [hcons]
      simp [hashS, List.isPrefixOf]
      exact fun hh => absurd hh.symm hch
    have hin : inStr eqeqS (((c :: n') ++ spaceHashS) ++ pyStripRight (' ' :: e)) = false := by
      apply inStr_eqeq_of_no_eq
      rw [List.all_eq_true]
      intro x hx
      rw [List.mem_append] at hx
      rcases hx with hx | hx
      · rw [List.mem_append] at hx
        rcases hx with hx | hx
        · have := List.all_eq_true.mp hplain x hx
          simp only [Bool.and_eq_true] at this
          exact this.1.2
        · simp only [spaceHashS, List.mem_cons, List.not_mem_nil, or_false] at hx
          rcases hx with rfl | rfl | rfl <;> decide
      · have hx2 := mem_pyStripRight x _ hx
        rw [List.mem_cons] at hx2
        rcases hx2 with rfl | hx2
        · decide
        · have := List.all_eq_true.mp hge x hx2
          simp only [Bool.and_eq_true] at this
          exact this.1
    rw [hor, hin]
    simp only [Bool.false_eq_true, if_false]
    rw [beforeHash_line (c :: n') _ (by
      rw [List.all_eq_true]
      intro x hx
      have := List.all_eq_true.mp hplain x hx
      simp only [Bool.and_eq_true] at this
      exact this.1.1)]
    rw [strip_wss (c :: n') hhead hlast]
  | some v =>
    simp only [goodVersion, Bool.and_eq_true] at hgv
    obtain ⟨⟨⟨⟨hvne, hvhead⟩, hvlast⟩, hvplain⟩, hvdot⟩ := hgv
    cases v with
    | nil => simp at hvne
    | cons d v' =>
    show parseLine (failBody ⟨c :: n', some (d :: v'), e⟩) = some (c :: n', some (d :: v'))
    rw [show failBody ⟨c :: n', some (d :: v'), e⟩ =
        (((c :: n') ++ eqeqS) ++ (d :: v')) ++ sepS ++ e from by
      simp [failBody]]
    unfold parseLine
    dsimp only
    have hwhead : headOkB (((c :: n') ++ eqeqS) ++ (d :: v')) = true := by
      simpa [headOkB] using hhead
    have hwlast : lastOkB (((c :: n') ++ eqeqS) ++ (d :: v')) = true := by
      unfold lastOkB at hvlast ⊢
      rw [List.getLast?_append]
      cases hgl : (d :: v').getLast? with
      | none => simp at hgl
      | some x =>
        rw [hgl] at hvlast
        simpa using hvlast
    rw [stripLine _ e hwhead hwlast (by simp)]
    have hcons : (((((c :: n') ++ eqeqS) ++ (d :: v')) ++ spaceHashS) ++
        pyStripRight (' ' :: e)) =
        c :: ((((n' ++ eqeqS) ++ (d :: v')) ++ spaceHashS) ++ pyStripRight (' ' :: e)) := by
      simp
    have hor : (((((c :: n') ++ eqeqS) ++ (d :: v')) ++ spaceHashS ++
        pyStripRight (' ' :: e)).isEmpty ||
        hashS.isPrefixOf ((((c :: n') ++ eqeqS) ++ (d :: v')) ++ spaceHashS ++
          pyStripRight (' ' :: e))) = false := by
      rw [hcons]
      simp [hashS, List.isPrefixOf]
      exact fun hh => absurd hh.symm hch
    have hin : inStr eqeqS ((((c :: n') ++ eqeqS) ++ (d :: v')) ++ spaceHashS ++
        pyStripRight (' ' :: e)) = true := by
      rw [show (((c :: n') ++ eqeqS) ++ (d :: v')) ++ spaceHashS ++
          pyStripRight (' ' :: e) =
          (c :: n') ++ eqeqS ++ (((d :: v') ++ spaceHashS) ++ pyStripRight (' ' :: e))
        from by simp]
      exact inStr_sandwich eqeqS (c :: n') _
    rw [hor, hin]
    simp only [Bool.false_eq_true, if_false, if_true]
    have hwplain : (((c :: n') ++ eqeqS) ++ (d :: v')).all (fun x => !(x == '#')) = true := by
      rw [List.all_eq_true]
      intro x hx
      rw [List.mem_append] at hx
      rcases hx with hx | hx
      · rw [List.mem_append] at hx
        rcases hx with hx | hx
        · have := List.all_eq_true.mp hplain x hx
          simp only [Bool.and_eq_true] at this
          exact this.1.1
        · have hx2 : x ∈ ['=', '='] := by
            rw [show eqeqS = ['=', '='] from rfl] at hx
            exact hx
          simp only [List.mem_cons, List.not_mem_nil, or_false] at hx2
          rcases hx2 with rfl | rfl <;> decide
      · have := List.all_eq_true.mp hvplain x hx
        simp only [Bool.and_eq_true] at this
        exact this.1.1
    rw [beforeHash_line _ _ hwplain]
    rw [strip_wss _ hwhead hwlast]
    have hin2 : inStr eqeqS (((c :: n') ++ eqeqS) ++ (d :: v')) = true :=
      inStr_sandwich eqeqS (c :: n') (d :: v')
    rw [hin2]
    simp only [if_true]
    rw [splitFirst_eqeq_sandwich (c :: n') (d :: v') (by
      rw [List.all_eq_true]
      intro x hx
      have := List.all_eq_true.mp hplain x hx
      simp only [Bool.and_eq_true] at this
      exact this.1.2)]
    dsimp only
    have hvdot2 : (d :: v').getLast?.all (fun x => !(x == '.')) = true := by
      cases hgl : (d :: v').getLast? with
      | none => simp at hgl
      | some x =>
        rw [hgl] at hvdot
        simpa using hvdot
    rw [pyStrip_ok (c :: n') hhead hlast, pyStrip_ok (d :: v') hvhead hvlast,
      pyRstripDots_lastOk (d :: v') hvdot2]

/-- A well-formed record's line body contains no newline. -/
theorem failBody_no_nl (r : FailureRecord) (h : goodRecord r = true) :
    (failBody r).all (fun c => !(c == '\n')) = true := by
  obtain ⟨n, ver, e⟩ := r
  simp only [goodRecord, Bool.and_eq_true] at h
  obtain ⟨⟨hgn, hgv⟩, hge⟩ := h
  simp only [goodName, Bool.and_eq_true] at hgn
  have hplain := hgn.2
  have hsep : sepS.all (fun c => !(c == '\n')) = true := by decide
  have hname : n.all (fun c => !(c == '\n')) = true := by
    rw [List.all_eq_true]
    intro x hx
    have := List.all_eq_true.mp hplain x hx
    simp only [Bool.and_eq_true] at this
    exact this.2
  have hreason : e.all (fun c => !(c == '\n')) = true := by
    rw [List.all_eq_true]
    intro x hx
    have := List.all_eq_true.mp hge x hx
    simp only [Bool.and_eq_true] at this
    exact this.2
  cases ver with
  | none =>
    show ((n ++ sepS ++ e).all fun c => !(c == '\n')) = true
    simp only [List.all_append, Bool.and_eq_true]
    exact ⟨⟨hname, hsep⟩, hreason⟩
  | some v =>
    simp only [goodVersion, Bool.and_eq_true] at hgv
    have hvplain := hgv.1.2
    have hver : v.all (fun c => !(c == '\n')) = true := by
      rw [List.all_eq_true]
      intro x hx
      have := List.all_eq_true.mp hvplain x hx
      simp only [Bool.and_eq_true] at this
      exact this.2
    have hvne : v.isEmpty = false := by
      have := hgv.1.1.1.1
      cases v with
      | nil => simp at this
      | cons d v' => rfl
    show (failBody ⟨n, some v, e⟩).all (fun c => !(c == '\n')) = true
    rw [show failBody ⟨n, some v, e⟩ = n ++ eqeqS ++ v ++ sepS ++ e from by
      simp [failBody, hvne]]
    simp only [List.all_append, Bool.and_eq_true]
    exact ⟨⟨⟨⟨hname, by decide⟩, hver⟩, hsep⟩, hreason⟩

/-- Splitting the concatenated record lines recovers the line bodies (plus
the empty tail after the final newline). -/
theorem splitLines_flatten (records : List FailureRecord)
    (h : records.all goodRecord = true) :
    splitLines ((records.map failLine).flatten) = records.map failBody ++ [[]] := by
  induction records with
  | nil => rfl
  | cons r rs ih =>
    simp only [List.all_cons, Bool.and_eq_true] at h
    rw [List.map_cons, List.flatten_cons]
    rw [show failLine r ++ (rs.map failLine).flatten =
        failBody r ++ '\n' :: (rs.map failLine).flatten from by simp [failLine]]
    rw [splitLines_append _ _ (failBody_no_nl r h.1)]
    rw [ih h.2]
    simp

/-- Parsing the record lines yields the (name, version) pairs in order. -/
theorem filterMap_parse_bodies (records : List FailureRecord)
    (h : records.all goodRecord = true) :
    List.filterMap parseLine (records.map failBody) =
      records.map (fun r => (r.name, r.version)) := by
  induction records with
  | nil => rfl
  | cons r rs ih =>
    simp only [List.all_cons, Bool.and_eq_true] at h
    rw [List.map_cons, List.filterMap_cons, parseLine_failBody r h.1, ih h.2,
      List.map_cons]

/-- C10, amended.  For failure records whose names are nonempty and free of
whitespace at either end and of the characters hash, equals sign and
newline throughout; whose versions, when present, are nonempty and free of
the same characters, surrounding whitespace and a trailing dot; and whose
reasons contain no equals sign and no newline — writing failed_packages.txt
as `main` does and parsing it with `parse_failed_packages_file` recovers
exactly the ordered list of (name, version) pairs, the header and reason
comments discarded.  (The original claim's guard — no hash character and
no trailing dot — is not sufficient: see the counterexample.) -/
theorem c10_amended (records : List FailureRecord)
    (h : records.all goodRecord = true) :
    parse_failed_packages_file (writeFailedFile records) =
      records.map (fun r => (r.name, r.version)) := by
  unfold parse_failed_packages_file writeFailedFile
  rw [show headerS ++ (records.map failLine).flatten =
      headerBodyS ++ '\n' :: (records.map failLine).flatten from by simp [headerS]]
  rw [splitLines_append _ _ (by decide)]
  rw [splitLines_flatten records h]
  rw [List.filterMap_cons]
  rw [show parseLine headerBodyS = none from by decide]
  rw [List.filterMap_append]
  rw [show List.filterMap parseLine [[]] = [] from by decide]
  rw [List.append_nil]
  exact filterMap_parse_bodies records h

def c10BadRecord : FailureRecord := ⟨"a==b".toList, none, "r".toList⟩
def c10NameS : List Char := "a".toList
def c10VerS : List Char := "b".toList

/-- C10, counterexample.  The claim's guard only excludes names and
versions containing a hash character and versions with a trailing dot.
The record with name `a==b`, no version and reason `r` satisfies that
guard, but the written line `a==b  # r` is parsed back as name `a` with
version `b`: the parser splits at the first `==` of any line containing
one, so the round trip does not recover the original pair. -/
theorem c10_counterexample :
    parse_failed_packages_file (writeFailedFile [c10BadRecord]) =
      [(c10NameS, some c10VerS)] ∧
    (c10NameS, some c10VerS) ≠ (c10BadRecord.name, c10BadRecord.version) := by
  decide

def c10GoodRecords : List FailureRecord :=
  [⟨"numpy".toList, some ("1.26.0".toList), "timeout".toList⟩,
   ⟨"scipy".toList, none, "no wheel".toList⟩]

/-- C10, witness for the amended theorem on a two-record failure list. -/
theorem c10_amended_witness :
    parse_failed_packages_file (writeFailedFile c10GoodRecords) =
      c10GoodRecords.map (fun r => (r.name, r.version)) :=
  c10_amended c10GoodRecords (by decide)
